import Mathlib

/-!
# Verification of `uni_extract.py` (Amatsutsumi/gal_extract)

A shallow embedding of the UNIONFILES archive extractor.  Python `bytes` are
modelled as `List Nat` (one number per byte), Python `str` as `List Char`
(one `Char` per code point).  The open archive file is modelled as the full
byte list; `f.read(n)` at cursor `pos` is `readAt data pos n` (which, like
the real `read`, returns fewer bytes at end of file).  The `while True:`
directory loop is embedded as a recursion on an explicit fuel argument;
`parse` supplies `data.length + 1` units of fuel, which is shown sufficient
(`parseLoop_fuel`) because every iteration that continues the loop advances
the cursor by at least 260 bytes.  Filesystem writes are modelled as a list
of per-entry outcomes; the `try/except OSError` around `open`/`write` is
modelled by a per-entry failure oracle `failsAt : Nat → Bool` (the
`os.makedirs` calls only (re)create directories with `exist_ok=True` and,
since the sanitizer removes every path separator, the per-entry call always
targets the already-created output directory; they are modelled as
infallible no-ops).  The platform path separator `os.sep` is modelled as the
POSIX `'/'`.
-/

set_option maxRecDepth 100000

namespace UniExtract

/-- `FIXED_PATH_LEN = 256` (uni_extract.py line 7). -/
def FIXED_PATH_LEN : Nat := 256

/-- `HEADER_MAGIC = b"UNIONFILES"` (line 8), as its ten byte values. -/
def HEADER_MAGIC : List Nat := [85, 78, 73, 79, 78, 70, 73, 76, 69, 83]

/-- `START_OFFSET = 0x10` (line 9). -/
def START_OFFSET : Nat := 16

/-- The byte values of the literal `b"UEND"` (line 72). -/
def uendTag : List Nat := [85, 69, 78, 68]

/-- `f.read(n)` with the cursor at absolute position `pos`: the next `n`
bytes of the archive, or fewer when the file ends first. -/
def readAt (data : List Nat) (pos n : Nat) : List Nat :=
  (data.drop pos).take n

/-- One little-endian unsigned 32-bit integer, as unpacked from 4 bytes by
`struct.unpack("<II", data)` (line 69); each of the two integers of the
pair comes from its own 4 bytes. -/
def readU32 : List Nat → Nat
  | [b0, b1, b2, b3] => b0 + 256 * b1 + 65536 * b2 + 16777216 * b3
  | _ => 0

/-- Little-endian 4-byte encoding of a number, used to build concrete
archives for the theorems below. -/
def le4 (n : Nat) : List Nat :=
  [n % 256, n / 256 % 256, n / 65536 % 256, n / 16777216 % 256]

/-- Models Python's `bytes.decode('shift_jis', errors='ignore')` (line 15).
ASCII bytes (`< 0x80`) decode to the same code point, single bytes
`0xA1`–`0xDF` to the halfwidth-katakana block `U+FF61`…, and a valid
lead/trail pair (`lead ∈ 0x81–0x9F ∪ 0xE0–0xEF`, `trail ∈ 0x40–0x7E ∪
0x80–0xFC`) to a JIS X 0208 code point, represented here by the opaque
injection `0x10000 + 256 * lead + trail` — the exact glyph table is
immaterial to every claim because double-byte output is only ever inspected
by `looks_like_valid_path`, which only distinguishes code points below
`0x80`.  Undecodable bytes are dropped, as `errors='ignore'` does. -/
def decodeSJIS : List Nat → List Char
  | [] => []
  | b :: rest =>
    if b ≤ 0x7F then Char.ofNat b :: decodeSJIS rest
    else if 0xA1 ≤ b ∧ b ≤ 0xDF then Char.ofNat (0xFF61 + (b - 0xA1)) :: decodeSJIS rest
    else if (0x81 ≤ b ∧ b ≤ 0x9F) ∨ (0xE0 ≤ b ∧ b ≤ 0xEF) then
      match rest with
      | [] => []
      | t :: rest' =>
        if (0x40 ≤ t ∧ t ≤ 0x7E) ∨ (0x80 ≤ t ∧ t ≤ 0xFC) then
          Char.ofNat (0x10000 + 256 * b + t) :: decodeSJIS rest'
        else decodeSJIS rest'
    else decodeSJIS rest

/-- `read_cstring` (lines 11–15): truncate the slot at the first zero byte
(`bs.find(b'\x00')`, the whole slot when there is none — `List.findIdx`
returns the length in that case, matching the `-1` patch-up) and decode. -/
def read_cstring (bs : List Nat) : List Char :=
  decodeSJIS (bs.take (bs.findIdx fun b => b == 0))

/-- `looks_like_valid_path` (lines 17–31), rule for rule:
empty → invalid; length < 3 → invalid; containing any of `'\x00'`–`'\x03'`
→ invalid (`any(c in name for c in [...])`); all code points < 32 →
invalid; starting with `"BM"` → invalid; otherwise valid. -/
def looks_like_valid_path (name : List Char) : Bool :=
  if name = [] then false
  else if name.length < 3 then false
  else if ['\x00', '\x01', '\x02', '\x03'].any (fun c => name.contains c) then false
  else if name.all (fun c => c.toNat < 32) then false
  else if name.take 2 = ['B', 'M'] then false
  else true

/-- The character class of the regex `[<>:"/\\|?*\x00-\x1f]` (line 36). -/
def illegalChar (c : Char) : Bool :=
  c == '<' || c == '>' || c == ':' || c == '"' || c == '/' || c == '\\' ||
    c == '|' || c == '?' || c == '*' || decide (c.toNat ≤ 0x1f)

/-- `sanitize_filename` (lines 33–37) with `os.sep = '/'` (POSIX):
`name.replace("\\", os.sep).lstrip(os.sep)`, then the regex substitution
replacing every `illegalChar` by `'_'`, then `name[:200]`. -/
def sanitize_filename (name : List Char) : List Char :=
  let replaced := (name.map fun c => if c = '\\' then '/' else c).dropWhile fun c => c = '/'
  let subbed := replaced.map fun c => if illegalChar c then '_' else c
  subbed.take 200

/-- Lines 71–73 at cursor position `q` (which is 264 bytes past the start
of the record being parsed): `uend = f.read(4)` moves the cursor to
`q + u.length`; if `uend == b"UEND"` the tag is consumed, otherwise
`f.seek(-4, 1)` moves the cursor back 4 bytes from wherever the (possibly
short) read left it. -/
def uendStep (data : List Nat) (q : Nat) : Nat :=
  let u := readAt data q 4
  if u = uendTag then q + 4 else q + u.length - 4

/-- One parsed directory record, the tuple `(name, offset, size)`
appended at line 75. -/
structure DirEntry where
  name : List Char
  offset : Nat
  size : Nat
deriving DecidableEq, Repr

/-- The `while True:` directory loop (lines 55–75), as a recursion on an
explicit fuel count; `entries` is the accumulator built by
`entries.append(...)`.  Each arm mirrors one `break`:
short 256-byte slot read (line 57), invalid decoded path (line 62), short
8-byte offset/size read (line 67); otherwise the record is appended and the
loop continues past the optional `UEND` tag. -/
def parseLoop (data : List Nat) : Nat → Nat → List DirEntry → List DirEntry
  | 0, _, entries => entries
  | fuel + 1, pos, entries =>
    let chunk := readAt data pos FIXED_PATH_LEN
    if chunk.length < FIXED_PATH_LEN then entries
    else
      let name := read_cstring chunk
      if looks_like_valid_path name = false then entries
      else
        let pair := readAt data (pos + FIXED_PATH_LEN) 8
        if pair.length < 8 then entries
        else
          parseLoop data fuel (uendStep data (pos + 264))
            (entries ++ [⟨name, readU32 (pair.take 4), readU32 (pair.drop 4)⟩])

/-- The full directory parse: `f.seek(START_OFFSET)` (line 52) then the
loop.  `data.length + 1` units of fuel are sufficient
(lemma `parseLoop_fuel`): the loop can iterate at most once per 260 bytes
of input. -/
def parse (data : List Nat) : List DirEntry :=
  parseLoop data (data.length + 1) START_OFFSET []

/-- `os.path.join` for the POSIX separator (line 89): `b` if it is
absolute; otherwise `a ++ b` when `a` is empty or already ends in the
separator; otherwise `a ++ "/" ++ b`. -/
def path_join (a b : List Char) : List Char :=
  if b.take 1 = ['/'] then b
  else if a = [] ∨ a.getLast? = some '/' then a ++ b
  else a ++ '/' :: b

/-- What the extraction loop does with one entry (lines 79–99): skip when
`offset == 0 or size == 0`; skip when the sanitized name is empty;
otherwise seek to `offset`, read `size` bytes and write them to
`os.path.join(out_dir, safe_name)` — unless the `open`/`write` pair raises
`OSError`, which the `except` arm at line 98 absorbs (`fails` says whether
it does for this entry). -/
inductive EntryOutcome where
  | skippedEmpty (name : List Char)
  | skippedInvalid (name : List Char)
  | wrote (path : List Char) (payload : List Nat)
  | failed (path : List Char)
deriving DecidableEq, Repr

/-- Processing of a single entry of the table (lines 79–99). -/
def processEntry (data : List Nat) (outDir : List Char) (fails : Bool)
    (e : DirEntry) : EntryOutcome :=
  if e.offset = 0 ∨ e.size = 0 then .skippedEmpty e.name
  else
    let safe := sanitize_filename e.name
    if safe = [] then .skippedInvalid e.name
    else
      let outPath := path_join outDir safe
      if fails then .failed outPath else .wrote outPath (readAt data e.offset e.size)

/-- The `for name, offset, size in entries:` loop; `i` numbers the entries
so that the failure oracle can be consulted per entry. -/
def processEntries (data : List Nat) (outDir : List Char) (failsAt : Nat → Bool) :
    Nat → List DirEntry → List EntryOutcome
  | _, [] => []
  | i, e :: es =>
    processEntry data outDir (failsAt i) e :: processEntries data outDir failsAt (i + 1) es

/-- `HEADER_MAGIC in peek` (line 47): substring search over the peeked
bytes. -/
def containsSub (hay needle : List Nat) : Bool :=
  (List.range (hay.length + 1)).any fun i => (hay.drop i).take needle.length == needle

/-- `extract` (lines 39–99).  The first ten bytes are compared against the
magic (line 44); on mismatch the first 64 bytes are searched for it
(line 47), and `SystemExit` is raised when it is absent — modelled as
`Except.error` carrying the message, so that an aborted run produces no
outcomes at all.  When the magic is found, the cursor reposition to
`peek.index(HEADER_MAGIC)` (line 50) is immediately overridden by
`f.seek(START_OFFSET)` (line 52), so both success paths continue
identically with the directory parse and the entry loop. -/
def extract (data : List Nat) (outDir : List Char) (failsAt : Nat → Bool) :
    Except (List Char) (List EntryOutcome) :=
  if readAt data 0 HEADER_MAGIC.length = HEADER_MAGIC then
    Except.ok (processEntries data outDir failsAt 0 (parse data))
  else if containsSub (readAt data 0 64) HEADER_MAGIC then
    Except.ok (processEntries data outDir failsAt 0 (parse data))
  else
    Except.error ("不是 UNIONFILES（未发现 magic）" : String).data

/-- The synthetic round-trip archive of claim C1: the magic and six bytes
of header padding, one 256-byte name slot holding `"a.bin"` zero-padded,
the little-endian offset `280 + filler.length` and size `content.length`,
then `filler` and the payload `content`, with the file ending right after
the payload. -/
def c1Archive (filler content : List Nat) : List Nat :=
  HEADER_MAGIC ++ List.replicate 6 0
    ++ ([97, 46, 98, 105, 110] ++ List.replicate 251 0)
    ++ le4 (280 + filler.length) ++ le4 content.length
    ++ filler ++ content

/-! ### Facts about the byte reader -/

theorem readAt_length (data : List Nat) (pos n : Nat) :
    (readAt data pos n).length = min n (data.length - pos) := by
  simp [readAt]

theorem readAt_take (data : List Nat) (m pos k : Nat) :
    readAt (data.take m) pos k = (readAt data pos k).take (m - pos) := by
  simp only [readAt, List.drop_take, List.take_take]
  rw [Nat.min_comm]

theorem readAt_at (a b c : List Nat) : readAt (a ++ (b ++ c)) a.length b.length = b := by
  simp [readAt, List.drop_left, List.take_left]

theorem readAt_after (a x : List Nat) (n : Nat) : readAt (a ++ x) a.length n = x.take n := by
  simp [readAt, List.drop_left]

theorem readAt_append_ge (a b : List Nat) (pos n : Nat) (h : a.length ≤ pos) :
    readAt (a ++ b) pos n = readAt b (pos - a.length) n := by
  obtain ⟨i, rfl⟩ : ∃ i, pos = a.length + i := ⟨pos - a.length, by omega⟩
  simp [readAt, List.drop_append]

/-- A full-length read from a truncated archive agrees with the read from
the whole archive. -/
theorem readAt_take_full (data : List Nat) (m pos k : Nat)
    (h : (readAt (data.take m) pos k).length = k) :
    readAt (data.take m) pos k = readAt data pos k ∧ (readAt data pos k).length = k := by
  have hX : (readAt data pos k).length ≤ k := by
    rw [readAt_length]; omega
  have hlen' : (readAt (data.take m) pos k).length
      = min (m - pos) (readAt data pos k).length := by
    rw [readAt_take, List.length_take]
  rw [h] at hlen'
  have h12 : k ≤ (readAt data pos k).length ∧ k ≤ m - pos := by
    rcases Nat.le_total (m - pos) (readAt data pos k).length with hmp | hmp
    · rw [Nat.min_eq_left hmp] at hlen'; omega
    · rw [Nat.min_eq_right hmp] at hlen'; omega
  obtain ⟨h1, h2⟩ := h12
  have hXk : (readAt data pos k).length = k := le_antisymm hX h1
  refine ⟨?_, hXk⟩
  rw [readAt_take]
  exact List.take_of_length_le (by omega)

/-! ### Facts about the `UEND` peek-and-rewind step -/

theorem uendStep_ge (data : List Nat) (q : Nat) : q - 4 ≤ uendStep data q := by
  unfold uendStep
  dsimp only
  split <;> omega

theorem uendStep_le (data : List Nat) (q : Nat) (h : q ≤ data.length) :
    uendStep data q ≤ data.length := by
  have hl := readAt_length data q 4
  unfold uendStep
  dsimp only
  split
  case isTrue h' =>
    have h4 : (readAt data q 4).length = 4 := by rw [h']; rfl
    omega
  case isFalse h' => omega

/-! ### Unfolding equations for the directory loop -/

theorem parseLoop_zero (data : List Nat) (pos : Nat) (acc : List DirEntry) :
    parseLoop data 0 pos acc = acc := rfl

theorem parseLoop_stop_short {data : List Nat} {pos : Nat} {fuel : Nat} {acc : List DirEntry}
    (h : (readAt data pos FIXED_PATH_LEN).length < FIXED_PATH_LEN) :
    parseLoop data (fuel + 1) pos acc = acc := by
  simp [parseLoop, h]

theorem parseLoop_stop_invalid {data : List Nat} {pos : Nat} {fuel : Nat} {acc : List DirEntry}
    (h1 : (readAt data pos FIXED_PATH_LEN).length = FIXED_PATH_LEN)
    (h2 : looks_like_valid_path (read_cstring (readAt data pos FIXED_PATH_LEN)) = false) :
    parseLoop data (fuel + 1) pos acc = acc := by
  simp [parseLoop, h1, h2]

theorem parseLoop_stop_pair {data : List Nat} {pos : Nat} {fuel : Nat} {acc : List DirEntry}
    (h1 : (readAt data pos FIXED_PATH_LEN).length = FIXED_PATH_LEN)
    (h2 : looks_like_valid_path (read_cstring (readAt data pos FIXED_PATH_LEN)) = true)
    (h3 : (readAt data (pos + FIXED_PATH_LEN) 8).length < 8) :
    parseLoop data (fuel + 1) pos acc = acc := by
  simp [parseLoop, h1, h2, h3]

theorem parseLoop_cons {data : List Nat} {pos : Nat} {fuel : Nat} {acc : List DirEntry}
    (h1 : (readAt data pos FIXED_PATH_LEN).length = FIXED_PATH_LEN)
    (h2 : looks_like_valid_path (read_cstring (readAt data pos FIXED_PATH_LEN)) = true)
    (h3 : (readAt data (pos + FIXED_PATH_LEN) 8).length = 8) :
    parseLoop data (fuel + 1) pos acc =
      parseLoop data fuel (uendStep data (pos + 264))
        (acc ++ [⟨read_cstring (readAt data pos FIXED_PATH_LEN),
                  readU32 ((readAt data (pos + FIXED_PATH_LEN) 8).take 4),
                  readU32 ((readAt data (pos + FIXED_PATH_LEN) 8).drop 4)⟩]) := by
  simp [parseLoop, h1, h2, h3]

/-- In the branch that found a full slot, the archive extends at least 256
bytes past `pos`. -/
theorem chunk_full_bound {data : List Nat} {pos : Nat}
    (h1 : (readAt data pos FIXED_PATH_LEN).length = FIXED_PATH_LEN) :
    pos + 256 ≤ data.length := by
  have := readAt_length data pos FIXED_PATH_LEN
  simp [FIXED_PATH_LEN] at this h1
  omega

/-- In the branch that found a full offset/size pair, the archive extends
at least 264 bytes past `pos`. -/
theorem pair_full_bound {data : List Nat} {pos : Nat}
    (h3 : (readAt data (pos + FIXED_PATH_LEN) 8).length = 8) :
    pos + 264 ≤ data.length := by
  have := readAt_length data (pos + FIXED_PATH_LEN) 8
  simp [FIXED_PATH_LEN] at this h3
  omega

/-- The accumulator only collects: the loop's result is the accumulator
followed by what the loop would produce from an empty accumulator. -/
theorem parseLoop_acc (data : List Nat) :
    ∀ fuel pos acc, parseLoop data fuel pos acc = acc ++ parseLoop data fuel pos [] := by
  intro fuel
  induction fuel with
  | zero => intro pos acc; simp [parseLoop_zero]
  | succ f ih =>
    intro pos acc
    by_cases hc1 : (readAt data pos FIXED_PATH_LEN).length < FIXED_PATH_LEN
    · rw [parseLoop_stop_short hc1, parseLoop_stop_short hc1, List.append_nil]
    · have h1 : (readAt data pos FIXED_PATH_LEN).length = FIXED_PATH_LEN := by
        have := readAt_length data pos FIXED_PATH_LEN
        simp [FIXED_PATH_LEN] at this hc1 ⊢
        omega
      by_cases hc2 : looks_like_valid_path (read_cstring (readAt data pos FIXED_PATH_LEN)) = true
      · by_cases hc3 : (readAt data (pos + FIXED_PATH_LEN) 8).length < 8
        · rw [parseLoop_stop_pair h1 hc2 hc3, parseLoop_stop_pair h1 hc2 hc3, List.append_nil]
        · have h3 : (readAt data (pos + FIXED_PATH_LEN) 8).length = 8 := by
            have := readAt_length data (pos + FIXED_PATH_LEN) 8
            simp at this hc3
            omega
          rw [parseLoop_cons h1 hc2 h3, parseLoop_cons h1 hc2 h3, ih _ _, ih _ ([] ++ _)]
          simp
      · have h2 : looks_like_valid_path (read_cstring (readAt data pos FIXED_PATH_LEN)) = false := by
          simpa using hc2
        rw [parseLoop_stop_invalid h1 h2, parseLoop_stop_invalid h1 h2, List.append_nil]

/-- Any two sufficient fuel amounts give the same result: the loop needs at
most one unit of fuel per remaining byte (indeed per 260 of them). -/
theorem parseLoop_fuel (data : List Nat) :
    ∀ f₁ f₂ pos acc, data.length - pos < f₁ → data.length - pos < f₂ →
      parseLoop data f₁ pos acc = parseLoop data f₂ pos acc := by
  intro f₁
  induction f₁ with
  | zero => intro f₂ pos acc h1 _; exact absurd h1 (Nat.not_lt_zero _)
  | succ f ih =>
    intro f₂ pos acc h1 h2
    cases f₂ with
    | zero => exact absurd h2 (Nat.not_lt_zero _)
    | succ g =>
      by_cases hc1 : (readAt data pos FIXED_PATH_LEN).length < FIXED_PATH_LEN
      · rw [parseLoop_stop_short hc1, parseLoop_stop_short hc1]
      · have hch : (readAt data pos FIXED_PATH_LEN).length = FIXED_PATH_LEN := by
          have := readAt_length data pos FIXED_PATH_LEN
          simp [FIXED_PATH_LEN] at this hc1 ⊢
          omega
        by_cases hc2 : looks_like_valid_path (read_cstring (readAt data pos FIXED_PATH_LEN)) = true
        · by_cases hc3 : (readAt data (pos + FIXED_PATH_LEN) 8).length < 8
          · rw [parseLoop_stop_pair hch hc2 hc3, parseLoop_stop_pair hch hc2 hc3]
          · have h3 : (readAt data (pos + FIXED_PATH_LEN) 8).length = 8 := by
              have := readAt_length data (pos + FIXED_PATH_LEN) 8
              simp at this hc3
              omega
            rw [parseLoop_cons hch hc2 h3, parseLoop_cons hch hc2 h3]
            have hpair := pair_full_bound h3
            have hge := uendStep_ge data (pos + 264)
            have hle := uendStep_le data (pos + 264) (by omega)
            exact ih g (uendStep data (pos + 264)) _ (by omega) (by omega)
        · have h2' : looks_like_valid_path (read_cstring (readAt data pos FIXED_PATH_LEN)) = false := by
            simpa using hc2
          rw [parseLoop_stop_invalid hch h2', parseLoop_stop_invalid hch h2']

/-- Each collected entry accounts for at least 260 bytes of archive. -/
theorem parseLoop_length (data : List Nat) :
    ∀ fuel pos acc, (parseLoop data fuel pos acc).length ≤ acc.length + (data.length - pos) / 260 := by
  intro fuel
  induction fuel with
  | zero => intro pos acc; simp [parseLoop_zero]
  | succ f ih =>
    intro pos acc
    by_cases hc1 : (readAt data pos FIXED_PATH_LEN).length < FIXED_PATH_LEN
    · rw [parseLoop_stop_short hc1]; omega
    · have hch : (readAt data pos FIXED_PATH_LEN).length = FIXED_PATH_LEN := by
        have := readAt_length data pos FIXED_PATH_LEN
        simp [FIXED_PATH_LEN] at this hc1 ⊢
        omega
      by_cases hc2 : looks_like_valid_path (read_cstring (readAt data pos FIXED_PATH_LEN)) = true
      · by_cases hc3 : (readAt data (pos + FIXED_PATH_LEN) 8).length < 8
        · rw [parseLoop_stop_pair hch hc2 hc3]; omega
        · have h3 : (readAt data (pos + FIXED_PATH_LEN) 8).length = 8 := by
            have := readAt_length data (pos + FIXED_PATH_LEN) 8
            simp at this hc3
            omega
          rw [parseLoop_cons hch hc2 h3]
          have hpair := pair_full_bound h3
          have hge := uendStep_ge data (pos + 264)
          have hle := uendStep_le data (pos + 264) (by omega)
          have hrec := ih (uendStep data (pos + 264))
            (acc ++ [⟨read_cstring (readAt data pos FIXED_PATH_LEN),
                      readU32 ((readAt data (pos + FIXED_PATH_LEN) 8).take 4),
                      readU32 ((readAt data (pos + FIXED_PATH_LEN) 8).drop 4)⟩])
          have hlen : (acc ++ [(⟨read_cstring (readAt data pos FIXED_PATH_LEN),
                      readU32 ((readAt data (pos + FIXED_PATH_LEN) 8).take 4),
                      readU32 ((readAt data (pos + FIXED_PATH_LEN) 8).drop 4)⟩ : DirEntry)]).length
              = acc.length + 1 := by simp
          rw [hlen] at hrec
          have hdiv : (data.length - uendStep data (pos + 264)) / 260 + 1
              ≤ (data.length - pos) / 260 := by
            have h260 : data.length - uendStep data (pos + 264) + 260 ≤ data.length - pos := by
              omega
            calc (data.length - uendStep data (pos + 264)) / 260 + 1
                = (data.length - uendStep data (pos + 264) + 260) / 260 :=
                  (Nat.add_div_right _ (by omega)).symm
              _ ≤ (data.length - pos) / 260 := Nat.div_le_div_right h260
          omega
      · have h2' : looks_like_valid_path (read_cstring (readAt data pos FIXED_PATH_LEN)) = false := by
          simpa using hc2
        rw [parseLoop_stop_invalid hch h2']; omega

/-- Every entry the loop adds to the accumulator passed the path
validator. -/
theorem parseLoop_mem (data : List Nat) :
    ∀ fuel pos acc e, e ∈ parseLoop data fuel pos acc →
      e ∈ acc ∨ looks_like_valid_path e.name = true := by
  intro fuel
  induction fuel with
  | zero => intro pos acc e he; exact Or.inl he
  | succ f ih =>
    intro pos acc e he
    by_cases hc1 : (readAt data pos FIXED_PATH_LEN).length < FIXED_PATH_LEN
    · rw [parseLoop_stop_short hc1] at he; exact Or.inl he
    · have hch : (readAt data pos FIXED_PATH_LEN).length = FIXED_PATH_LEN := by
        have := readAt_length data pos FIXED_PATH_LEN
        simp [FIXED_PATH_LEN] at this hc1 ⊢
        omega
      by_cases hc2 : looks_like_valid_path (read_cstring (readAt data pos FIXED_PATH_LEN)) = true
      · by_cases hc3 : (readAt data (pos + FIXED_PATH_LEN) 8).length < 8
        · rw [parseLoop_stop_pair hch hc2 hc3] at he; exact Or.inl he
        · have h3 : (readAt data (pos + FIXED_PATH_LEN) 8).length = 8 := by
            have := readAt_length data (pos + FIXED_PATH_LEN) 8
            simp at this hc3
            omega
          rw [parseLoop_cons hch hc2 h3] at he
          rcases ih _ _ _ he with hmem | hvalid
          · rcases List.mem_append.mp hmem with h | h
            · exact Or.inl h
            · refine Or.inr ?_
              have : e = ⟨read_cstring (readAt data pos FIXED_PATH_LEN),
                  readU32 ((readAt data (pos + FIXED_PATH_LEN) 8).take 4),
                  readU32 ((readAt data (pos + FIXED_PATH_LEN) 8).drop 4)⟩ := by
                simpa using h
              rw [this]
              exact hc2
          · exact Or.inr hvalid
      · have h2' : looks_like_valid_path (read_cstring (readAt data pos FIXED_PATH_LEN)) = false := by
          simpa using hc2
        rw [parseLoop_stop_invalid hch h2'] at he; exact Or.inl he

/-- A short slot read ends the loop whatever the fuel. -/
theorem parseLoop_stops {data : List Nat} {pos : Nat}
    (h : (readAt data pos FIXED_PATH_LEN).length < FIXED_PATH_LEN) :
    ∀ fuel acc, parseLoop data fuel pos acc = acc := by
  intro fuel acc
  cases fuel with
  | zero => rfl
  | succ f => exact parseLoop_stop_short h

/-- Truncating the archive anywhere can only cut entries off the end of the
parse: the loop on the truncated archive produces a prefix of the loop on
the whole archive (same fuel, same start, same accumulator). -/
theorem parseLoop_take (data : List Nat) :
    ∀ fuel n pos acc, ∃ t,
      parseLoop data fuel pos acc = parseLoop (data.take n) fuel pos acc ++ t := by
  intro fuel
  induction fuel with
  | zero => intro n pos acc; exact ⟨[], by simp [parseLoop_zero]⟩
  | succ f ih =>
    intro n pos acc
    by_cases hc1 : (readAt (data.take n) pos FIXED_PATH_LEN).length < FIXED_PATH_LEN
    · rw [parseLoop_stop_short hc1]
      exact ⟨parseLoop data (f + 1) pos [], parseLoop_acc data (f + 1) pos acc⟩
    · have hT : (readAt (data.take n) pos FIXED_PATH_LEN).length = FIXED_PATH_LEN := by
        have := readAt_length (data.take n) pos FIXED_PATH_LEN
        simp [FIXED_PATH_LEN] at this hc1 ⊢
        omega
      obtain ⟨hTeq, hfull⟩ := readAt_take_full data n pos FIXED_PATH_LEN hT
      by_cases hc2 : looks_like_valid_path (read_cstring (readAt data pos FIXED_PATH_LEN)) = true
      · by_cases hc3 : (readAt (data.take n) (pos + FIXED_PATH_LEN) 8).length < 8
        · rw [parseLoop_stop_pair hT (by rw [hTeq]; exact hc2) hc3]
          exact ⟨parseLoop data (f + 1) pos [], parseLoop_acc data (f + 1) pos acc⟩
        · have hTp : (readAt (data.take n) (pos + FIXED_PATH_LEN) 8).length = 8 := by
            have := readAt_length (data.take n) (pos + FIXED_PATH_LEN) 8
            simp at this hc3
            omega
          obtain ⟨hTpeq, hpfull⟩ := readAt_take_full data n (pos + FIXED_PATH_LEN) 8 hTp
          have hc2T : looks_like_valid_path (read_cstring (readAt (data.take n) pos FIXED_PATH_LEN)) = true := by
            rw [hTeq]; exact hc2
          rw [parseLoop_cons hfull hc2 hpfull, parseLoop_cons hT hc2T hTp, hTeq, hTpeq]
          by_cases hul : (readAt (data.take n) (pos + 264) 4).length = 4
          · obtain ⟨hueq, _⟩ := readAt_take_full data n (pos + 264) 4 hul
            have hstep : uendStep (data.take n) (pos + 264) = uendStep data (pos + 264) := by
              simp only [uendStep, hueq]
            rw [hstep]
            exact ih n _ _
          · have hkle : (readAt (data.take n) (pos + 264) 4).length ≤ 4 := by
              rw [readAt_length]; omega
            have hk : (readAt (data.take n) (pos + 264) 4).length < 4 :=
              lt_of_le_of_ne hkle hul
            have hune : readAt (data.take n) (pos + 264) 4 ≠ uendTag := by
              intro hcontra
              have : (readAt (data.take n) (pos + 264) 4).length = 4 := by rw [hcontra]; rfl
              omega
            have hstepT : uendStep (data.take n) (pos + 264)
                = pos + 264 + (readAt (data.take n) (pos + 264) 4).length - 4 := by
              simp only [uendStep, if_neg hune]
            have hTpair : pos + 264 ≤ (data.take n).length := pair_full_bound hTp
            have hkeq : (readAt (data.take n) (pos + 264) 4).length
                = (data.take n).length - (pos + 264) := by
              have hmin := readAt_length (data.take n) (pos + 264) 4
              rcases Nat.le_total 4 ((data.take n).length - (pos + 264)) with hmp | hmp
              · rw [Nat.min_eq_left hmp] at hmin; omega
              · rw [Nat.min_eq_right hmp] at hmin; omega
            have hshort : (readAt (data.take n) (uendStep (data.take n) (pos + 264))
                FIXED_PATH_LEN).length < FIXED_PATH_LEN := by
              have hxle : (data.take n).length - uendStep (data.take n) (pos + 264) ≤ 4 := by
                omega
              rw [readAt_length]
              have hr := Nat.min_le_right FIXED_PATH_LEN
                ((data.take n).length - uendStep (data.take n) (pos + 264))
              have hf : FIXED_PATH_LEN = 256 := rfl
              omega
            rw [parseLoop_stops hshort]
            exact ⟨parseLoop data f (uendStep data (pos + 264)) [],
              parseLoop_acc data f (uendStep data (pos + 264)) _⟩
      · have h2' : looks_like_valid_path (read_cstring (readAt data pos FIXED_PATH_LEN)) = false := by
          simpa using hc2
        have h2T : looks_like_valid_path (read_cstring (readAt (data.take n) pos FIXED_PATH_LEN)) = false := by
          rw [hTeq]; exact h2'
        rw [parseLoop_stop_invalid hfull h2', parseLoop_stop_invalid hT h2T]
        exact ⟨[], by simp⟩

/-- Consequences of passing the validator: a collected name is non-empty,
at least 3 characters long, free of `'\x00'`–`'\x03'`, and does not start
with `"BM"`. -/
theorem valid_path_facts {s : List Char} (h : looks_like_valid_path s = true) :
    s ≠ [] ∧ 3 ≤ s.length ∧ '\x00' ∉ s ∧ s.take 2 ≠ ['B', 'M'] := by
  unfold looks_like_valid_path at h
  split_ifs at h with h1 h2 h3 h4 h5
  refine ⟨h1, by omega, ?_, h5⟩
  intro hmem
  apply h3
  refine List.any_eq_true.mpr ⟨'\x00', by simp, ?_⟩
  simpa [List.contains_eq_any_beq, List.any_eq_true] using hmem

/-- **C2**: once the magic check has passed, the directory loop never turns
a short read into an error: a slot read shorter than 256 bytes, or an
offset/size read shorter than 8 bytes, ends the loop with exactly the
entries collected so far (the embedding is a total function — the Python
loop performs no fallible operation: `struct.unpack` is guarded by the
length check and the relative `seek` target is always non-negative); and
globally, truncating the archive at any point yields a prefix of the
untruncated parse. -/
theorem c2_truncation (data : List Nat) :
    (∀ fuel pos acc, (readAt data pos FIXED_PATH_LEN).length < FIXED_PATH_LEN →
        parseLoop data fuel pos acc = acc)
  ∧ (∀ fuel pos acc, (readAt data pos FIXED_PATH_LEN).length = FIXED_PATH_LEN →
        looks_like_valid_path (read_cstring (readAt data pos FIXED_PATH_LEN)) = true →
        (readAt data (pos + FIXED_PATH_LEN) 8).length < 8 →
        parseLoop data fuel pos acc = acc)
  ∧ (∀ n, ∃ t, parse data = parse (data.take n) ++ t) := by
  refine ⟨?_, ?_, ?_⟩
  · intro fuel pos acc h
    exact parseLoop_stops h fuel acc
  · intro fuel pos acc h1 h2 h3
    cases fuel with
    | zero => rfl
    | succ f => exact parseLoop_stop_pair h1 h2 h3
  · intro n
    obtain ⟨t, ht⟩ := parseLoop_take data (data.length + 1) n START_OFFSET []
    refine ⟨t, ?_⟩
    rw [parse, ht, parse]
    have hlenT : (data.take n).length ≤ data.length := by
      rw [List.length_take]; exact Nat.min_le_right _ _
    congr 1
    exact parseLoop_fuel (data.take n) (data.length + 1) ((data.take n).length + 1)
      START_OFFSET [] (by omega) (by omega)

/-- Witness for C2 at concrete inputs: an empty archive keeps an already
collected entry, and truncating the round-trip archive at byte 300 leaves
its parse a prefix of the full parse. -/
theorem c2_truncation_witness :
    parseLoop [] 1 0 [⟨"abc".data, 1, 2⟩] = [⟨"abc".data, 1, 2⟩]
      ∧ ∃ t, parse (c1Archive [] [7]) = parse ((c1Archive [] [7]).take 300) ++ t :=
  ⟨(c2_truncation []).1 1 0 [⟨"abc".data, 1, 2⟩] (by decide),
   (c2_truncation (c1Archive [] [7])).2.2 300⟩

/-- **C9**: the directory loop terminates on every finite archive (the
embedding's fuel argument is shown sufficient by `parseLoop_fuel`), and
each completed iteration advances the cursor by at least 260 bytes
(`uendStep_ge`), so the number of collected entries — the number of loop
iterations that do not exit — is at most the archive length divided
by 260. -/
theorem c9_iteration_bound (data : List Nat) :
    (parse data).length ≤ data.length / 260 := by
  have h := parseLoop_length data (data.length + 1) START_OFFSET []
  simp only [List.length_nil, Nat.zero_add] at h
  rw [parse]
  exact le_trans h (Nat.div_le_div_right (by omega))

/-- **C10**: every entry of the parsed table has a name accepted by the
path validator; in particular the name is non-empty, at least 3 characters
long, contains no NUL character, and does not start with `"BM"`. -/
theorem c10_entry_invariant (data : List Nat) (e : DirEntry) (he : e ∈ parse data) :
    looks_like_valid_path e.name = true ∧ e.name ≠ [] ∧ 3 ≤ e.name.length ∧
      '\x00' ∉ e.name ∧ e.name.take 2 ≠ ['B', 'M'] := by
  have hv : looks_like_valid_path e.name = true := by
    rcases parseLoop_mem data (data.length + 1) START_OFFSET [] e he with h | h
    · simp at h
    · exact h
  obtain ⟨h1, h2, h3, h4⟩ := valid_path_facts hv
  exact ⟨hv, h1, h2, h3, h4⟩

/-- Witness for C10: the single entry parsed from the concrete round-trip
archive satisfies the invariant. -/
theorem c10_entry_invariant_witness :
    looks_like_valid_path (⟨"a.bin".data, 280, 1⟩ : DirEntry).name = true
      ∧ (⟨"a.bin".data, 280, 1⟩ : DirEntry).name ≠ []
      ∧ 3 ≤ (⟨"a.bin".data, 280, 1⟩ : DirEntry).name.length
      ∧ '\x00' ∉ (⟨"a.bin".data, 280, 1⟩ : DirEntry).name
      ∧ (⟨"a.bin".data, 280, 1⟩ : DirEntry).name.take 2 ≠ ['B', 'M'] :=
  c10_entry_invariant (c1Archive [] [7]) ⟨"a.bin".data, 280, 1⟩ (by decide)

/-- **C3**: the path validator is the pure predicate applying the claimed
rules: valid exactly when the name is non-empty, at least 3 characters
long, free of the characters `'\x00'`–`'\x03'`, not entirely below code
point 32, and not starting with `"BM"`; together with the claimed concrete
evaluations. -/
theorem c3_validator :
    (∀ name : List Char, looks_like_valid_path name = true ↔
        (name ≠ [] ∧ 3 ≤ name.length
          ∧ (∀ c ∈ name, c ∉ (['\x00', '\x01', '\x02', '\x03'] : List Char))
          ∧ (∃ c ∈ name, 32 ≤ c.toNat)
          ∧ name.take 2 ≠ ['B', 'M']))
      ∧ looks_like_valid_path "".data = false
      ∧ looks_like_valid_path "ab".data = false
      ∧ looks_like_valid_path "\x01\x01\x01".data = false
      ∧ looks_like_valid_path "BM8xxx".data = false
      ∧ looks_like_valid_path "data/foo.txt".data = true := by
  refine ⟨?_, by decide, by decide, by decide, by decide, by decide⟩
  intro name
  unfold looks_like_valid_path
  split_ifs with h1 h2 h3 h4 h5
  · exact iff_of_false (by simp) (by simp [h1])
  · exact iff_of_false (by simp) (by rintro ⟨-, hl, -⟩; omega)
  · refine iff_of_false (by simp) ?_
    rintro ⟨-, -, hno, -, -⟩
    obtain ⟨c, hc4, hcname⟩ := List.any_eq_true.mp h3
    have hcmem : c ∈ name := by
      simpa [List.contains_eq_any_beq, List.any_eq_true, eq_comm] using hcname
    exact hno c hcmem hc4
  · refine iff_of_false (by simp) ?_
    rintro ⟨-, -, -, ⟨c, hcmem, hc32⟩, -⟩
    have := List.all_eq_true.mp h4 c hcmem
    simp at this
    omega
  · exact iff_of_false (by simp) (by rintro ⟨-, -, -, -, hBM⟩; exact hBM h5)
  · refine iff_of_true rfl ⟨h1, by omega, ?_, ?_, h5⟩
    · intro c hcname hc4
      refine h3 (List.any_eq_true.mpr ⟨c, hc4, ?_⟩)
      simpa [List.contains_eq_any_beq, List.any_eq_true, eq_comm] using hcname
    · obtain ⟨c, hc, hge⟩ : ∃ c ∈ name, ¬c.toNat < 32 := by
        simpa [List.all_eq_true] using h4
      exact ⟨c, hc, by omega⟩

/-- Witness for C3: `"data/foo.txt"` is accepted, and the
characterization's right-hand side holds of it. -/
theorem c3_validator_witness :
    looks_like_valid_path "data/foo.txt".data = true ∧
      ("data/foo.txt".data ≠ [] ∧ 3 ≤ "data/foo.txt".data.length
        ∧ (∀ c ∈ "data/foo.txt".data, c ∉ (['\x00', '\x01', '\x02', '\x03'] : List Char))
        ∧ (∃ c ∈ "data/foo.txt".data, 32 ≤ c.toNat)
        ∧ "data/foo.txt".data.take 2 ≠ ['B', 'M']) :=
  ⟨c3_validator.2.2.2.2.2, (c3_validator.1 "data/foo.txt".data).mp c3_validator.2.2.2.2.2⟩

/-- Counterexample to C4 as stated: the backslash of `"a\b"` is normalized
to the separator by step 1, but the replacement step then replaces that
separator too — the result is `"a_b"`, not `"a/b"`, and contains no
directory separator. -/
theorem c4_counterexample :
    sanitize_filename "a\\b".data = "a_b".data
      ∧ sanitize_filename "a\\b".data ≠ "a/b".data
      ∧ '/' ∉ sanitize_filename "a\\b".data := by
  refine ⟨by decide, by decide, by decide⟩

/-- **C4 (amended)**: the sanitizer replaces every character of the set
`< > : " / \ | ? *` and every control character (code points 0–31) with an
underscore, *including* the path separator produced by step 1's backslash
normalization — no character of that class, in particular no separator,
survives in the output. -/
theorem c4_sanitize_replaces (name : List Char) :
    ∀ c ∈ sanitize_filename name, illegalChar c = false := by
  intro c hc
  simp only [sanitize_filename] at hc
  obtain ⟨a, -, rfl⟩ := List.mem_map.mp (List.mem_of_mem_take hc)
  by_cases h : illegalChar a
  · rw [if_pos h]; decide
  · rw [if_neg h]; simpa using h

/-- Witness for C4 (amended): the surviving character `'a'` of
`sanitize_filename "a\b"` is not in the replaced class. -/
theorem c4_sanitize_replaces_witness :
    'a' ∈ sanitize_filename "a\\b".data ∧ illegalChar 'a' = false :=
  ⟨by decide, c4_sanitize_replaces "a\\b".data 'a' (by decide)⟩

/-- Counterexample to C8 as stated: the non-empty input `"/"` sanitizes to
the empty string (`lstrip` removes the leading separator and nothing is
left). -/
theorem c8_counterexample :
    sanitize_filename "/".data = [] ∧ "/".data ≠ ([] : List Char) := by
  exact ⟨by decide, by decide⟩

/-- **C8 (amended)**: the sanitizer always returns at most 200 characters,
and its result is empty exactly when every character of the input is a
backslash or a separator — in particular the empty input gives the empty
result, but non-empty inputs such as `"/"` or `"\"` do too. -/
theorem c8_sanitize_bounds (name : List Char) :
    (sanitize_filename name).length ≤ 200
      ∧ ((sanitize_filename name = []) ↔ ∀ c ∈ name, c = '\\' ∨ c = '/') := by
  constructor
  · simp only [sanitize_filename]
    rw [List.length_take]
    exact Nat.min_le_left _ _
  · simp only [sanitize_filename]
    rw [List.take_eq_nil_iff, List.map_eq_nil_iff, List.dropWhile_eq_nil_iff]
    constructor
    · intro h c hc
      rcases h with h | h
      · exact absurd h (by decide)
      · have hp := h _ (List.mem_map_of_mem _ hc)
        by_cases hb : c = '\\'
        · exact Or.inl hb
        · right
          simpa [hb] using hp
    · intro h
      right
      intro x hx
      obtain ⟨c, hc, rfl⟩ := List.mem_map.mp hx
      rcases h c hc with hb | hs
      · subst hb; decide
      · subst hs; decide

/-- Witness for C8 (amended) at the concrete input `"/"`. -/
theorem c8_sanitize_bounds_witness :
    (sanitize_filename "/".data).length ≤ 200
      ∧ ((sanitize_filename "/".data = []) ↔ ∀ c ∈ "/".data, c = '\\' ∨ c = '/') :=
  c8_sanitize_bounds "/".data

/-- Counterexample to C7 as stated: with only 2 bytes left after the
offset/size pair (peek position 280 in a 282-byte archive), the 4-byte
read is short, the bytes are not `"UEND"`, and the rewind lands the cursor
at 278 — the next record would start 262 bytes after the record start, not
264 as claimed. -/
theorem c7_counterexample :
    readAt (List.replicate 282 0) 280 4 ≠ uendTag
      ∧ uendStep (List.replicate 282 0) 280 = 278
      ∧ (278 : Nat) ≠ 280 := by decide

/-- **C7 (amended)**: after the offset/size pair the parser reads up to 4
bytes at cursor `q` (264 bytes past the record start).  If they equal
`"UEND"` they are consumed and the next record starts at `q + 4` (268 past
the record start).  Otherwise the cursor is rewound 4 bytes from its
post-read position: with at least 4 bytes available the next record starts
at `q` itself (264 past the record start); with a short read the next
position is `data.length - 4`, i.e. `260 + k` past the record start where
`k < 4` is the number of bytes actually read — after which the loop
necessarily stops, because only 4 bytes of archive remain. -/
theorem c7_uend_step (data : List Nat) (q : Nat) :
    (readAt data q 4 = uendTag → uendStep data q = q + 4)
      ∧ (readAt data q 4 ≠ uendTag → q + 4 ≤ data.length → uendStep data q = q)
      ∧ (readAt data q 4 ≠ uendTag → q ≤ data.length → data.length < q + 4 →
          uendStep data q = data.length - 4) := by
  refine ⟨?_, ?_, ?_⟩
  · intro h
    simp [uendStep, h]
  · intro h hle
    have hlen : (readAt data q 4).length = 4 := by
      rw [readAt_length]
      rw [Nat.min_eq_left (by omega)]
    simp only [uendStep, if_neg h]
    omega
  · intro h hq hlt
    have hlen : (readAt data q 4).length = data.length - q := by
      rw [readAt_length]
      rw [Nat.min_eq_right (by omega)]
    simp only [uendStep, if_neg h]
    omega

/-- Witness for C7 (amended): the three cases at concrete inputs — a
consumed tag, a full non-tag read, and a short read that rewinds past the
pair's end. -/
theorem c7_uend_step_witness :
    uendStep ([85, 69, 78, 68] : List Nat) 0 = 4
      ∧ uendStep (List.replicate 8 0) 0 = 0
      ∧ uendStep (List.replicate 282 0) 280 = 278 :=
  ⟨(c7_uend_step [85, 69, 78, 68] 0).1 (by decide),
   (c7_uend_step (List.replicate 8 0) 0).2.1 (by decide) (by decide),
   ((c7_uend_step (List.replicate 282 0) 280).2.2 (by decide) (by decide)
     (by decide)).trans (by decide)⟩

/-- `struct.unpack` inverts the little-endian encoding below `2^32`. -/
theorem readU32_le4 (n : Nat) (h : n < 4294967296) : readU32 (le4 n) = n := by
  simp [readU32, le4]
  omega

/-- The round-trip archive, re-associated so its 16-byte header prefix is
outermost. -/
theorem c1Archive_eq1 (filler content : List Nat) :
    c1Archive filler content
      = (HEADER_MAGIC ++ List.replicate 6 0)
        ++ (([97, 46, 98, 105, 110] ++ List.replicate 251 0)
          ++ ((le4 (280 + filler.length) ++ le4 content.length) ++ (filler ++ content))) := by
  simp [c1Archive, List.append_assoc]

/-- The round-trip archive, re-associated at the offset/size pair. -/
theorem c1Archive_eq2 (filler content : List Nat) :
    c1Archive filler content
      = ((HEADER_MAGIC ++ List.replicate 6 0)
          ++ ([97, 46, 98, 105, 110] ++ List.replicate 251 0))
        ++ ((le4 (280 + filler.length) ++ le4 content.length) ++ (filler ++ content)) := by
  simp [c1Archive, List.append_assoc]

/-- The round-trip archive, re-associated at the end of the directory. -/
theorem c1Archive_eq3 (filler content : List Nat) :
    c1Archive filler content
      = (((HEADER_MAGIC ++ List.replicate 6 0)
          ++ ([97, 46, 98, 105, 110] ++ List.replicate 251 0))
          ++ (le4 (280 + filler.length) ++ le4 content.length))
        ++ (filler ++ content) := by
  simp [c1Archive, List.append_assoc]

/-- The round-trip archive, re-associated at the payload. -/
theorem c1Archive_eq4 (filler content : List Nat) :
    c1Archive filler content
      = ((((HEADER_MAGIC ++ List.replicate 6 0)
          ++ ([97, 46, 98, 105, 110] ++ List.replicate 251 0))
          ++ (le4 (280 + filler.length) ++ le4 content.length))
          ++ filler)
        ++ content := by
  simp [c1Archive, List.append_assoc]

theorem c1Archive_length (filler content : List Nat) :
    (c1Archive filler content).length = 280 + filler.length + content.length := by
  rw [c1Archive_eq3, List.length_append, List.length_append]
  have hA : ((HEADER_MAGIC ++ List.replicate 6 0)
      ++ ([97, 46, 98, 105, 110] ++ List.replicate 251 0)).length = 272 := rfl
  have hB : (le4 (280 + filler.length) ++ le4 content.length).length = 8 := rfl
  have hE : (filler ++ content).length = filler.length + content.length := by
    rw [List.length_append]
  omega

/-- The 256-byte slot read of the round-trip archive. -/
theorem c1_chunk (filler content : List Nat) :
    readAt (c1Archive filler content) START_OFFSET FIXED_PATH_LEN
      = [97, 46, 98, 105, 110] ++ List.replicate 251 0 := by
  rw [c1Archive_eq1]
  have h := readAt_at (HEADER_MAGIC ++ List.replicate 6 0)
    ([97, 46, 98, 105, 110] ++ List.replicate 251 0)
    ((le4 (280 + filler.length) ++ le4 content.length) ++ (filler ++ content))
  have hp : (HEADER_MAGIC ++ List.replicate 6 0).length = START_OFFSET := by decide
  have hs : ([97, 46, 98, 105, 110] ++ List.replicate 251 0).length = FIXED_PATH_LEN := by decide
  rw [hp, hs] at h
  exact h

/-- The 8-byte offset/size read of the round-trip archive. -/
theorem c1_pair (filler content : List Nat) :
    readAt (c1Archive filler content) (START_OFFSET + FIXED_PATH_LEN) 8
      = le4 (280 + filler.length) ++ le4 content.length := by
  rw [c1Archive_eq2]
  have h := readAt_at
    ((HEADER_MAGIC ++ List.replicate 6 0) ++ ([97, 46, 98, 105, 110] ++ List.replicate 251 0))
    (le4 (280 + filler.length) ++ le4 content.length)
    (filler ++ content)
  have hp : ((HEADER_MAGIC ++ List.replicate 6 0)
      ++ ([97, 46, 98, 105, 110] ++ List.replicate 251 0)).length
      = START_OFFSET + FIXED_PATH_LEN := by decide
  have hs : (le4 (280 + filler.length) ++ le4 content.length).length = 8 := rfl
  rw [hp, hs] at h
  exact h

/-- The 4-byte `UEND` peek of the round-trip archive reads the first bytes
after the directory. -/
theorem c1_uend (filler content : List Nat) :
    readAt (c1Archive filler content) 280 4 = (filler ++ content).take 4 := by
  rw [c1Archive_eq3]
  have h := readAt_after
    (((HEADER_MAGIC ++ List.replicate 6 0)
        ++ ([97, 46, 98, 105, 110] ++ List.replicate 251 0))
        ++ (le4 (280 + filler.length) ++ le4 content.length))
    (filler ++ content) 4
  have hp : (((HEADER_MAGIC ++ List.replicate 6 0)
      ++ ([97, 46, 98, 105, 110] ++ List.replicate 251 0))
      ++ (le4 (280 + filler.length) ++ le4 content.length)).length = 280 := rfl
  rw [hp] at h
  exact h

/-- The payload read of the round-trip archive returns exactly the
content. -/
theorem c1_payload (filler content : List Nat) :
    readAt (c1Archive filler content) (280 + filler.length) content.length = content := by
  rw [c1Archive_eq4]
  have h := readAt_after
    ((((HEADER_MAGIC ++ List.replicate 6 0)
        ++ ([97, 46, 98, 105, 110] ++ List.replicate 251 0))
        ++ (le4 (280 + filler.length) ++ le4 content.length))
        ++ filler)
    content content.length
  have hp : ((((HEADER_MAGIC ++ List.replicate 6 0)
      ++ ([97, 46, 98, 105, 110] ++ List.replicate 251 0))
      ++ (le4 (280 + filler.length) ++ le4 content.length))
      ++ filler).length = 280 + filler.length := by
    rw [List.length_append]
    have h280 : (((HEADER_MAGIC ++ List.replicate 6 0)
        ++ ([97, 46, 98, 105, 110] ++ List.replicate 251 0))
        ++ (le4 (280 + filler.length) ++ le4 content.length)).length = 280 := rfl
    omega
  rw [hp, List.take_length] at h
  exact h

/-- Parsing the round-trip archive yields exactly its one directory
entry. -/
theorem c1_parse (filler content : List Nat) (h1 : 1 ≤ content.length)
    (h2 : filler.length + content.length < 256) :
    parse (c1Archive filler content)
      = [⟨"a.bin".data, 280 + filler.length, content.length⟩] := by
  have hchunk := c1_chunk filler content
  have hpair := c1_pair filler content
  have huend := c1_uend filler content
  have hL := c1Archive_length filler content
  have hchunklen : (readAt (c1Archive filler content) START_OFFSET FIXED_PATH_LEN).length
      = FIXED_PATH_LEN := by rw [hchunk]; rfl
  have hvalid : looks_like_valid_path
      (read_cstring (readAt (c1Archive filler content) START_OFFSET FIXED_PATH_LEN)) = true := by
    rw [hchunk]; decide
  have hname : read_cstring (readAt (c1Archive filler content) START_OFFSET FIXED_PATH_LEN)
      = "a.bin".data := by rw [hchunk]; decide
  have hpairlen : (readAt (c1Archive filler content) (START_OFFSET + FIXED_PATH_LEN) 8).length
      = 8 := by rw [hpair]; rfl
  have hoff : readU32 ((readAt (c1Archive filler content) (START_OFFSET + FIXED_PATH_LEN) 8).take 4)
      = 280 + filler.length := by
    rw [hpair]
    have htake : (le4 (280 + filler.length) ++ le4 content.length).take 4
        = le4 (280 + filler.length) := rfl
    rw [htake, readU32_le4 _ (by omega)]
  have hsize : readU32 ((readAt (c1Archive filler content) (START_OFFSET + FIXED_PATH_LEN) 8).drop 4)
      = content.length := by
    rw [hpair]
    have hdrop : (le4 (280 + filler.length) ++ le4 content.length).drop 4
        = le4 content.length := rfl
    rw [hdrop, readU32_le4 _ (by omega)]
  have hR : (filler ++ content).length = filler.length + content.length := by simp
  have hrem : (c1Archive filler content).length - uendStep (c1Archive filler content) 280 < 256 := by
    by_cases hu : (filler ++ content).take 4 = uendTag
    · have hstep : uendStep (c1Archive filler content) 280 = 284 := by
        simp [uendStep, huend, hu]
      omega
    · have hstep : uendStep (c1Archive filler content) 280
          = 280 + min 4 (filler.length + content.length) - 4 := by
        simp only [uendStep]
        rw [huend, if_neg hu, List.length_take, hR]
      rcases Nat.le_total 4 (filler.length + content.length) with hm | hm
      · rw [Nat.min_eq_left hm] at hstep; omega
      · rw [Nat.min_eq_right hm] at hstep; omega
  have hshort : (readAt (c1Archive filler content)
      (uendStep (c1Archive filler content) 280) FIXED_PATH_LEN).length < FIXED_PATH_LEN := by
    rw [readAt_length]
    have := Nat.min_le_right FIXED_PATH_LEN
      ((c1Archive filler content).length - uendStep (c1Archive filler content) 280)
    have hf : FIXED_PATH_LEN = 256 := rfl
    omega
  rw [parse]
  rw [parseLoop_cons hchunklen hvalid hpairlen]
  rw [show START_OFFSET + 264 = 280 from rfl]
  rw [parseLoop_stops hshort]
  rw [hname, hoff, hsize]
  simp

/-- If the magic opens the file, the 64-byte substring search finds it. -/
theorem containsSub_of_magic_head {data : List Nat}
    (hc : readAt data 0 HEADER_MAGIC.length = HEADER_MAGIC) :
    containsSub (readAt data 0 64) HEADER_MAGIC = true := by
  have ht : (readAt data 0 64).take HEADER_MAGIC.length = HEADER_MAGIC := by
    have h2 : (readAt data 0 64).take HEADER_MAGIC.length = readAt data 0 HEADER_MAGIC.length := by
      simp only [readAt, List.drop_zero, List.take_take]
      congr 1
    rw [h2, hc]
  unfold containsSub
  refine List.any_eq_true.mpr ⟨0, by simp, by simp [ht]⟩

/-- Both magic-found paths of `extract` continue into the parse and the
entry loop. -/
theorem extract_ok {data : List Nat} (outDir : List Char) (failsAt : Nat → Bool)
    (h : containsSub (readAt data 0 64) HEADER_MAGIC = true) :
    extract data outDir failsAt
      = Except.ok (processEntries data outDir failsAt 0 (parse data)) := by
  by_cases h10 : readAt data 0 HEADER_MAGIC.length = HEADER_MAGIC
  · simp only [extract]
    rw [if_pos h10]
  · simp only [extract]
    rw [if_neg h10, if_pos h]

/-- When the magic is nowhere in the first 64 bytes, `extract` raises the
`SystemExit` modelled as `Except.error`. -/
theorem extract_error {data : List Nat} (outDir : List Char) (failsAt : Nat → Bool)
    (h : containsSub (readAt data 0 64) HEADER_MAGIC = false) :
    extract data outDir failsAt
      = Except.error ("不是 UNIONFILES（未发现 magic）" : String).data := by
  have h10 : readAt data 0 HEADER_MAGIC.length ≠ HEADER_MAGIC := by
    intro hc
    rw [containsSub_of_magic_head hc] at h
    simp at h
  simp only [extract]
  rw [if_neg h10, if_neg (by simp [h])]

theorem processEntries_length (data : List Nat) (outDir : List Char) (failsAt : Nat → Bool) :
    ∀ es i, (processEntries data outDir failsAt i es).length = es.length := by
  intro es
  induction es with
  | nil => intro i; rfl
  | cons e es ih => intro i; simp [processEntries, ih]

/-- Entry `j` of the outcome list is the processing of entry `j` of the
table, under its own failure flag — outcomes are computed entrywise. -/
theorem processEntries_get (data : List Nat) (outDir : List Char) (failsAt : Nat → Bool) :
    ∀ es i j (hj : j < (processEntries data outDir failsAt i es).length) (hj' : j < es.length),
      (processEntries data outDir failsAt i es).get ⟨j, hj⟩
        = processEntry data outDir (failsAt (i + j)) (es.get ⟨j, hj'⟩) := by
  intro es
  induction es with
  | nil => intro i j hj hj'; simp at hj'
  | cons e es ih =>
    intro i j hj hj'
    cases j with
    | zero => simp [processEntries]
    | succ k =>
      have hj2 : k < es.length := by simpa using hj'
      have h1 : k < (processEntries data outDir failsAt (i + 1) es).length := by
        rw [processEntries_length data outDir failsAt es (i + 1)]
        exact hj2
      have hrec := ih (i + 1) k h1 hj2
      have hidx : i + 1 + k = i + (k + 1) := by omega
      calc (processEntries data outDir failsAt i (e :: es)).get ⟨k + 1, hj⟩
          = (processEntries data outDir failsAt (i + 1) es).get ⟨k, h1⟩ := rfl
        _ = processEntry data outDir (failsAt (i + 1 + k)) (es.get ⟨k, hj2⟩) := hrec
        _ = processEntry data outDir (failsAt (i + (k + 1))) ((e :: es).get ⟨k + 1, hj'⟩) := by
            rw [hidx]
            rfl

/-- **C6**: when the ten-byte magic does not occur within the first 64
bytes, the whole run aborts with the format error and produces no outcomes
(no file is written); when it does occur there — at offset 0 or later —
the run proceeds to parse the directory at offset 16 and process its
entries. -/
theorem c6_magic_gate (data : List Nat) (outDir : List Char) (failsAt : Nat → Bool) :
    (containsSub (readAt data 0 64) HEADER_MAGIC = false →
        extract data outDir failsAt
          = Except.error ("不是 UNIONFILES（未发现 magic）" : String).data)
      ∧ (containsSub (readAt data 0 64) HEADER_MAGIC = true →
        extract data outDir failsAt
          = Except.ok (processEntries data outDir failsAt 0 (parse data))) :=
  ⟨extract_error outDir failsAt, extract_ok outDir failsAt⟩

/-- Witness for C6: a 70-byte zero file aborts with the format error; a
file that is exactly the magic proceeds (and extracts nothing). -/
theorem c6_magic_gate_witness :
    extract (List.replicate 70 0) "output".data (fun _ => false)
        = Except.error ("不是 UNIONFILES（未发现 magic）" : String).data
      ∧ extract HEADER_MAGIC "output".data (fun _ => false) = Except.ok [] :=
  ⟨(c6_magic_gate (List.replicate 70 0) "output".data (fun _ => false)).1 (by decide),
   ((c6_magic_gate HEADER_MAGIC "output".data (fun _ => false)).2 (by decide)).trans (by rfl)⟩

/-- **C5**: when the run proceeds past the magic check, it returns one
outcome per parsed entry, whatever the per-entry `open`/`write` failures
are: the outcome list always has exactly the table's length (no failure
aborts the batch), and entry `i`'s outcome is computed from entry `i` and
its own failure flag alone — a failing entry becomes its own `failed`
outcome (the logged `[失败]` branch) while every other entry is processed
unchanged. -/
theorem c5_entry_isolation (data : List Nat) (outDir : List Char) (failsAt : Nat → Bool)
    (h : containsSub (readAt data 0 64) HEADER_MAGIC = true) :
    ∃ l, extract data outDir failsAt = Except.ok l
      ∧ l.length = (parse data).length
      ∧ ∀ i (hi : i < l.length) (hp : i < (parse data).length),
          l.get ⟨i, hi⟩ = processEntry data outDir (failsAt i) ((parse data).get ⟨i, hp⟩) := by
  refine ⟨processEntries data outDir failsAt 0 (parse data), extract_ok outDir failsAt h,
    processEntries_length data outDir failsAt (parse data) 0, ?_⟩
  intro i hi hp
  have hg := processEntries_get data outDir failsAt (parse data) 0 i hi hp
  simpa using hg

/-- Witness for C5: on the concrete round-trip archive with an
always-failing write oracle, the run still returns an outcome list of the
table's length. -/
theorem c5_entry_isolation_witness :
    ∃ l, extract (c1Archive [] [7]) "output".data (fun _ => true) = Except.ok l
      ∧ l.length = (parse (c1Archive [] [7])).length
      ∧ ∀ i (hi : i < l.length) (hp : i < (parse (c1Archive [] [7])).length),
          l.get ⟨i, hi⟩ = processEntry (c1Archive [] [7]) "output".data ((fun _ => true) i)
            ((parse (c1Archive [] [7])).get ⟨i, hp⟩) :=
  c5_entry_isolation (c1Archive [] [7]) "output".data (fun _ => true) (by decide)

/-- **C1**: round trip — for the synthetic archive with the magic header,
one record `(name "a.bin", offset 280 + filler.length, size
content.length)` and the payload `content` placed at exactly that offset,
extraction succeeds and writes the file `output/a.bin` with contents
exactly `content`. -/
theorem c1_roundtrip (filler content : List Nat) (h1 : 1 ≤ content.length)
    (h2 : filler.length + content.length < 256) :
    extract (c1Archive filler content) "output".data (fun _ => false)
      = Except.ok [EntryOutcome.wrote "output/a.bin".data content] := by
  have hmagic : readAt (c1Archive filler content) 0 HEADER_MAGIC.length = HEADER_MAGIC := by
    have hshape : c1Archive filler content
        = HEADER_MAGIC ++ (List.replicate 6 0
          ++ ([97, 46, 98, 105, 110] ++ (List.replicate 251 0
            ++ (le4 (280 + filler.length) ++ (le4 content.length
              ++ (filler ++ content)))))) := by
      simp [c1Archive, List.append_assoc]
    rw [hshape]
    simp only [readAt, List.drop_zero]
    exact List.take_left _ _
  have hparse := c1_parse filler content h1 h2
  have hpe : processEntry (c1Archive filler content) "output".data false
      ⟨"a.bin".data, 280 + filler.length, content.length⟩
      = EntryOutcome.wrote "output/a.bin".data content := by
    simp only [processEntry]
    rw [if_neg (show ¬(280 + filler.length = 0 ∨ content.length = 0) from by omega)]
    rw [if_neg (show ¬(sanitize_filename "a.bin".data = []) from by decide)]
    rw [if_neg (show ¬(false = true) from by decide)]
    rw [show path_join "output".data (sanitize_filename "a.bin".data)
        = "output/a.bin".data from by decide]
    rw [c1_payload filler content]
  rw [extract_ok "output".data (fun _ => false) (containsSub_of_magic_head hmagic), hparse]
  simp only [processEntries]
  rw [hpe]

/-- Witness for C1 at the one-byte payload `[7]` with no filler. -/
theorem c1_roundtrip_witness :
    1 ≤ ([7] : List Nat).length
      ∧ ([] : List Nat).length + ([7] : List Nat).length < 256
      ∧ extract (c1Archive [] [7]) "output".data (fun _ => false)
          = Except.ok [EntryOutcome.wrote "output/a.bin".data [7]] :=
  ⟨by decide, by decide, c1_roundtrip [] [7] (by decide) (by decide)⟩

end UniExtract
